import Mathlib

/-!
# Verification of the RAG retrieval + re-ranking pipeline

A shallow embedding of the core of the `rag` package of this repository:

* `src/rag/query_improved.py` — `RagQueryEngine.retrieve_candidates`,
  `RagQueryEngine.rerank`, `RagQueryEngine.answer`;
* `src/rag/rerank_improved.py` — `rerank_chunks`;
* `src/rag/model_cache.py` — `get_embedding_model`, `get_rerank_model`,
  `RERANK_MODEL_ALIASES`.

External effectful collaborators are modelled abstractly:

* the cross-encoder model's `predict` is an arbitrary deterministic function
  `String → String → Int` from (query, passage-text) to a relevance score
  (only the ordering of scores matters, so scores are embedded as `Int`);
* the PostgreSQL `knowledge_chunks` table is a list of `Row`s and the pgvector
  `<=>` distance to the query embedding is an arbitrary function
  `List Int → Int` on the stored embeddings;
* model loading in the cache is modelled with a fresh-handle counter in the
  cache state and a `failing : String → Bool` predicate saying which model
  names raise on load;
* Python's stable `sorted` is embedded as `List.mergeSort`, which has the same
  (stable-sort) extensional behaviour.

Python dictionaries that the code reads and writes by key become Lean
structures; the in-place score write of `RagQueryEngine.rerank` is modelled
twice: once with value semantics (`rerank`) and once against an explicit heap
(`rerankHeap`) so the mutation of the caller's dicts is itself provable.
-/

/-- A candidate record as built by `RagQueryEngine.retrieve_candidates`
(src/rag/query_improved.py lines 121–129): the keys of the Python dict,
with `rerank_score` absent (`none`) until `rerank` writes it. -/
structure Candidate where
  id : Nat
  text : String
  source : String
  chunk_index : Nat
  order : Nat
  distance : Int
  rerank_score : Option Int
  deriving Repr, DecidableEq

/-- Reading `c["rerank_score"]` (the code only reads it after writing it,
so the default is never observable in the source's control flow). -/
def getScore (c : Candidate) : Int :=
  c.rerank_score.getD 0

/-- The write `c["rerank_score"] = float(s)` of src/rag/query_improved.py
line 153. -/
def setScore (c : Candidate) (s : Int) : Candidate :=
  { c with rerank_score := some s }

/-- The comparison used by `sorted(candidates, key=lambda x: x["rerank_score"],
reverse=True)`: a stable descending sort by a key is a stable sort with
respect to `key b ≤ key a`. -/
def keyDescLE (key : α → Int) (a b : α) : Bool :=
  decide (key b ≤ key a)

/-- Lines 142–153 of src/rag/query_improved.py: every candidate is paired
with the question, scored by the cross-encoder, and the score written back
onto the candidate. -/
def addScores (predict : String → String → Int) (question : String)
    (candidates : List Candidate) : List Candidate :=
  candidates.map (fun c => setScore c (predict question c.text))

/-- Model of `RagQueryEngine.rerank` (src/rag/query_improved.py lines 134–158) with
`top_n_rerank` and the cross-encoder's `predict` as parameters: empty input
returns `[]`; otherwise score every candidate, sort descending by
`rerank_score` (stable) and truncate to `top_n_rerank`. -/
def rerank (predict : String → String → Int) (top_n_rerank : Nat)
    (question : String) (candidates : List Candidate) : List Candidate :=
  if candidates.isEmpty then []
  else
    ((addScores predict question candidates).mergeSort
      (keyDescLE getScore)).take top_n_rerank

/-- A chunk dict as consumed by `rerank_chunks` of src/rag/rerank_improved.py:
the `"text"` key may be missing (`chunk.get("text", "")`), so it is an
`Option String` here. -/
structure ChunkD where
  id : Nat
  text : Option String
  rerank_score : Option Int
  deriving Repr, DecidableEq

/-- Reading `x["rerank_score"]` on a chunk dict. -/
def chunkScore (c : ChunkD) : Int :=
  c.rerank_score.getD 0

/-- Lines 60–75 of src/rag/rerank_improved.py: pair every chunk's text
(missing text becomes `""`), score it, and attach the score to a copy of
the chunk. -/
def addScoresChunks (predict : String → String → Int) (question : String)
    (chunks : List ChunkD) : List ChunkD :=
  chunks.map (fun c => { c with rerank_score := some (predict question (c.text.getD "")) })

/-- Model of `rerank_chunks` (src/rag/rerank_improved.py lines 44–85), with the
resolved cross-encoder's `predict` as a parameter: empty input returns `[]`;
otherwise score copies of all chunks, sort descending by `rerank_score`
(stable) and truncate to `top_n`. -/
def rerank_chunks (predict : String → String → Int) (question : String)
    (chunks : List ChunkD) (top_n : Nat) : List ChunkD :=
  if chunks.isEmpty then []
  else
    ((addScoresChunks predict question chunks).mergeSort
      (keyDescLE chunkScore)).take top_n

/-- A row of the `knowledge_chunks` table as the SQL of
src/rag/query_improved.py lines 102–114 sees it: `source` and `order` are
nullable columns, `embedding` may be NULL (the query filters those out). -/
structure Row where
  id : Nat
  text : String
  metadata : String
  source : Option String
  order : Option Nat
  embedding : Option (List Int)
  deriving Repr, DecidableEq

/-- The ORDER BY comparison of the SQL query: ascending `embedding <=> q`
distance, with the pgvector distance to the query embedding abstracted as
`dist` on the stored embedding. -/
def distAscLE (dist : List Int → Int) (a b : Row) : Bool :=
  decide (dist (a.embedding.getD []) ≤ dist (b.embedding.getD []))

/-- The semantics of the SQL query of src/rag/query_improved.py lines
102–114: keep rows whose embedding is non-NULL, order by ascending distance,
and LIMIT to `top_k_retrieve` rows. -/
def sqlQuery (dist : List Int → Int) (table : List Row)
    (top_k_retrieve : Nat) : List Row :=
  ((table.filter (fun r => r.embedding.isSome)).mergeSort
    (distAscLE dist)).take top_k_retrieve

/-- Lines 117–129 of src/rag/query_improved.py: one fetched row becomes one
candidate dict; `source or "unknown"` maps NULL and `""` to `"unknown"`,
`order or 0` maps NULL to `0`, and the selected `distance` column is
`embedding <=> q`. -/
def rowToCandidate (dist : List Int → Int) (r : Row) : Candidate :=
  { id := r.id
    text := r.text
    source := match r.source with
      | some s => if s = "" then "unknown" else s
      | none => "unknown"
    chunk_index := r.order.getD 0
    order := r.order.getD 0
    distance := dist (r.embedding.getD [])
    rerank_score := none }

/-- Model of `RagQueryEngine.retrieve_candidates` (src/rag/query_improved.py lines
84–132): run the vector search and convert each returned row, in order, to a
candidate dict. -/
def retrieve_candidates (dist : List Int → Int) (table : List Row)
    (top_k_retrieve : Nat) : List Candidate :=
  (sqlQuery dist table top_k_retrieve).map (rowToCandidate dist)

/-- Which of the three pipeline stages an `answer` call actually invoked
(instrumentation of the control flow of src/rag/query_improved.py lines
183–223; the source calls `self.retrieve_candidates`, `self.rerank` and
`llm_callable` exactly where the flags below become `true`). -/
structure CallLog where
  retrieveCalled : Bool
  rerankCalled : Bool
  llmCalled : Bool
  deriving Repr, DecidableEq

/-- The guard `not s.strip()` for a Python string: true iff `s` is empty or
whitespace-only. -/
def isBlank (s : String) : Bool :=
  s.toList.all (fun c => c.isWhitespace)

/-- Model of `RagQueryEngine.answer` (src/rag/query_improved.py lines 160–229) with
the two stages and the generator injected as functions, returning the
(answer, chunks) pair together with the call log.  `question` defaults to
`search_query` when absent (line 176–177); timing instrumentation is pure
side-channel and is not modelled.  The guard `not search_query.strip()` of
line 183 holds exactly when every character of `search_query` is whitespace
(including the empty string), which is how `isBlank` renders it.  The
sentinel strings are the source's literals from lines 184, 199 and 215. -/
def answerRun (retrieveFn : String → List Candidate)
    (rerankFn : String → List Candidate → List Candidate)
    (llmFn : String → List Candidate → String)
    (search_query : String) (question : Option String) :
    (String × List Candidate) × CallLog :=
  let question := question.getD search_query
  if isBlank search_query then
    (("שאלה ריקה.", []), ⟨false, false, false⟩)
  else
    let candidates := retrieveFn search_query
    if candidates.isEmpty then
      (("לא נמצאו קטעים רלוונטיים במסמכים.", []), ⟨true, false, false⟩)
    else
      let top_chunks := rerankFn search_query candidates
      if top_chunks.isEmpty then
        (("לא הצלחתי לדרג קטעים רלוונטיים.", []), ⟨true, true, false⟩)
      else
        ((llmFn question top_chunks, top_chunks), ⟨true, true, true⟩)

/-- The module-level cache of src/rag/model_cache.py lines 8–12: one
(handle, name) slot per model kind.  Handles are opaque object identities,
modelled as naturals, with `counter` the next fresh identity: a successful
load returns the fresh handle `counter` (a new object, distinct from every
handle allocated before). -/
structure CacheState where
  embedding_model : Option Nat
  embedding_model_name : Option String
  rerank_model : Option Nat
  rerank_model_name : Option String
  counter : Nat
  deriving Repr, DecidableEq

/-- Model of `get_embedding_model` (src/rag/model_cache.py lines 15–27).  A cache
miss attempts `SentenceTransformer(model_name)`: if that load raises
(`failing model_name`), the exception propagates before either global is
assigned, so the state comes back unchanged; on success the fresh handle is
stored together with the name.  A cache hit returns the stored handle and
leaves the state alone. -/
def get_embedding_model (failing : String → Bool) (model_name : String)
    (st : CacheState) : Except String Nat × CacheState :=
  if st.embedding_model = none ∨ st.embedding_model_name ≠ some model_name then
    if failing model_name then
      (Except.error "model load error", st)
    else
      (Except.ok st.counter,
        { st with embedding_model := some st.counter,
                  embedding_model_name := some model_name,
                  counter := st.counter + 1 })
  else
    (Except.ok (st.embedding_model.getD 0), st)

/-- The table `RERANK_MODEL_ALIASES` (src/rag/model_cache.py lines 31–36). -/
def RERANK_MODEL_ALIASES : List (String × String) :=
  [("fast", "cross-encoder/ms-marco-MiniLM-L-6-v2"),
   ("balanced", "BAAI/bge-reranker-base"),
   ("best", "BAAI/bge-reranker-large"),
   ("latest", "mixedbread-ai/mxbai-rerank-large-v1")]

/-- The lookup `RERANK_MODEL_ALIASES.get(model_name, model_name)`
(src/rag/model_cache.py line 48). -/
def resolveAlias (model_name : String) : String :=
  (RERANK_MODEL_ALIASES.lookup model_name).getD model_name

/-- Model of `get_rerank_model` (src/rag/model_cache.py lines 38–58): resolve the
alias first, then the same cache-or-load policy as `get_embedding_model`,
comparing the cached name against the resolved name. -/
def get_rerank_model (failing : String → Bool) (model_name : String)
    (st : CacheState) : Except String Nat × CacheState :=
  let actual_model_name := resolveAlias model_name
  if st.rerank_model = none ∨ st.rerank_model_name ≠ some actual_model_name then
    if failing actual_model_name then
      (Except.error "model load error", st)
    else
      (Except.ok st.counter,
        { st with rerank_model := some st.counter,
                  rerank_model_name := some actual_model_name,
                  counter := st.counter + 1 })
  else
    (Except.ok (st.rerank_model.getD 0), st)

/-- The single dict write `c["rerank_score"] = float(s)` against an explicit
heap mapping dict identities to dict values. -/
def writeScore (st : Nat → Candidate) (r : Nat) (s : Int) : Nat → Candidate :=
  Function.update st r (setScore (st r) s)

/-- Model of `RagQueryEngine.rerank` again (src/rag/query_improved.py lines 134–158),
this time with the caller's dicts held in an explicit heap `store` and the
argument list `refs` holding dict identities, so the in-place mutation of
line 152–153 is visible: the scores are computed from the pairs first, then
written onto the caller's dicts, and `sorted(...)` builds a new list while
`refs` itself is untouched. -/
def rerankHeap (predict : String → String → Int) (top_n_rerank : Nat)
    (question : String) (refs : List Nat) (store : Nat → Candidate) :
    List Nat × (Nat → Candidate) :=
  if refs.isEmpty then ([], store)
  else
    let pairs := refs.map (fun r => (question, (store r).text))
    let scores := pairs.map (fun p => predict p.1 p.2)
    let store2 := (refs.zip scores).foldl
      (fun st rs => writeScore st rs.1 rs.2) store
    let sorted := refs.mergeSort (keyDescLE (fun r => getScore (store2 r)))
    (sorted.take top_n_rerank, store2)

/-! ## Generic facts about the stable descending sort-by-key + truncate step -/

theorem keyDescLE_trans {α : Type} (key : α → Int) (a b c : α) :
    keyDescLE key a b → keyDescLE key b c → keyDescLE key a c := by
  simp only [keyDescLE, decide_eq_true_eq]
  exact fun h₁ h₂ => le_trans h₂ h₁

theorem keyDescLE_total {α : Type} (key : α → Int) (a b : α) :
    keyDescLE key a b || keyDescLE key b a := by
  simp only [keyDescLE, Bool.or_eq_true, decide_eq_true_eq]
  exact le_total (key b) (key a)

theorem pairwise_take_mergeSort {α : Type} (key : α → Int) (l : List α) (n : Nat) :
    ((l.mergeSort (keyDescLE key)).take n).Pairwise (fun a b => key b ≤ key a) := by
  have hs : (l.mergeSort (keyDescLE key)).Pairwise (fun a b => keyDescLE key a b) :=
    List.sorted_mergeSort (keyDescLE_trans key) (keyDescLE_total key) l
  have ht := hs.sublist (List.take_sublist n (l.mergeSort (keyDescLE key)))
  exact ht.imp (fun h => by simpa [keyDescLE, decide_eq_true_eq] using h)

theorem mem_of_mem_take_mergeSort {α : Type} (key : α → Int) (l : List α) (n : Nat)
    (c : α) (hc : c ∈ (l.mergeSort (keyDescLE key)).take n) : c ∈ l := by
  have := List.take_subset n (l.mergeSort (keyDescLE key)) hc
  exact List.mem_mergeSort.mp this

theorem filter_keyEq_mergeSort {α : Type} (key : α → Int) (l : List α) (s : Int) :
    (l.mergeSort (keyDescLE key)).filter (fun c => decide (key c = s))
      = l.filter (fun c => decide (key c = s)) := by
  have hpair : (l.filter (fun c => decide (key c = s))).Pairwise
      (fun a b => keyDescLE key a b) := by
    apply List.pairwise_of_forall_mem_list
    intro a ha b hb
    have ha' := (List.mem_filter.mp ha).2
    have hb' := (List.mem_filter.mp hb).2
    simp only [decide_eq_true_eq] at ha' hb'
    simp [keyDescLE, ha', hb']
  have hsub : List.Sublist (l.filter (fun c => decide (key c = s)))
      (l.mergeSort (keyDescLE key)) :=
    List.sublist_mergeSort (keyDescLE_trans key) (keyDescLE_total key) hpair
      (List.filter_sublist l)
  have hsub2 := hsub.filter (fun c => decide (key c = s))
  rw [List.filter_filter] at hsub2
  simp only [Bool.and_self] at hsub2
  have hperm : List.Perm
      ((l.mergeSort (keyDescLE key)).filter (fun c => decide (key c = s)))
      (l.filter (fun c => decide (key c = s))) :=
    (List.mergeSort_perm l (keyDescLE key)).filter _
  exact (hsub2.eq_of_length hperm.length_eq.symm).symm

theorem filter_take_prefixOf {α : Type} (p : α → Bool) (l : List α) (n : Nat) :
    (l.take n).filter p <+: l.filter p :=
  ⟨(l.drop n).filter p, by rw [← List.filter_append, List.take_append_drop]⟩

theorem take_mergeSort_shape {α : Type} (key : α → Int) (l : List α) (n : Nat) :
    ((l.mergeSort (keyDescLE key)).take n).length = min n l.length
    ∧ ((l.mergeSort (keyDescLE key)).take n).Pairwise (fun a b => key b ≤ key a)
    ∧ (∀ c ∈ (l.mergeSort (keyDescLE key)).take n, c ∈ l)
    ∧ (∀ s : Int, ((l.mergeSort (keyDescLE key)).take n).filter (fun c => decide (key c = s))
        <+: l.filter (fun c => decide (key c = s))) := by
  refine ⟨by simp, pairwise_take_mergeSort key l n,
    mem_of_mem_take_mergeSort key l n, fun s => ?_⟩
  have h := filter_take_prefixOf (fun c => decide (key c = s))
    (l.mergeSort (keyDescLE key)) n
  rwa [filter_keyEq_mergeSort key l s] at h

/-! ## Concrete sample inputs used by witnesses and counterexamples -/

def sampleCandidate : Candidate :=
  { id := 1, text := "תודעה אקטיבית", source := "doc.md", chunk_index := 0,
    order := 0, distance := 0, rerank_score := none }

def sampleChunk : ChunkD :=
  { id := 1, text := some "תודעה אקטיבית", rerank_score := none }

/-- C1: for every query, every non-empty candidate list and every positive
`top_n`, both `RagQueryEngine.rerank` and `rerank_chunks` return exactly
`min top_n (input length)` results, sorted by `rerank_score` descending;
the sort is stable (for each score value, the output's elements with that
score are a prefix, in input order, of the scored input's elements with
that score); and every output element's text is the text of some input
candidate — nothing is fabricated. -/
theorem rerank_shape_sorted_stable
    (predict : String → String → Int) (q : String) (top_n : Nat)
    (cands : List Candidate) (chunks : List ChunkD)
    (hc : cands ≠ []) (hk : chunks ≠ []) (hpos : 0 < top_n) :
    ((rerank predict top_n q cands).length = min top_n cands.length
     ∧ List.Pairwise (fun a b => getScore b ≤ getScore a) (rerank predict top_n q cands)
     ∧ (∀ c ∈ rerank predict top_n q cands, ∃ c₀ ∈ cands, c.text = c₀.text)
     ∧ (∀ s : Int, (rerank predict top_n q cands).filter (fun c => decide (getScore c = s))
         <+: (addScores predict q cands).filter (fun c => decide (getScore c = s))))
    ∧ ((rerank_chunks predict q chunks top_n).length = min top_n chunks.length
     ∧ List.Pairwise (fun a b => chunkScore b ≤ chunkScore a) (rerank_chunks predict q chunks top_n)
     ∧ (∀ c ∈ rerank_chunks predict q chunks top_n, ∃ c₀ ∈ chunks, c.text = c₀.text)
     ∧ (∀ s : Int, (rerank_chunks predict q chunks top_n).filter (fun c => decide (chunkScore c = s))
         <+: (addScoresChunks predict q chunks).filter (fun c => decide (chunkScore c = s)))) := by
  have hc' : cands.isEmpty = false := by
    simpa [List.isEmpty_iff] using hc
  have hk' : chunks.isEmpty = false := by
    simpa [List.isEmpty_iff] using hk
  have hre : rerank predict top_n q cands
      = ((addScores predict q cands).mergeSort (keyDescLE getScore)).take top_n := by
    simp [rerank, hc']
  have hrc : rerank_chunks predict q chunks top_n
      = ((addScoresChunks predict q chunks).mergeSort (keyDescLE chunkScore)).take top_n := by
    simp [rerank_chunks, hk']
  obtain ⟨L1, P1, M1, S1⟩ := take_mergeSort_shape getScore (addScores predict q cands) top_n
  obtain ⟨L2, P2, M2, S2⟩ := take_mergeSort_shape chunkScore (addScoresChunks predict q chunks) top_n
  rw [hre, hrc]
  refine ⟨⟨?_, P1, ?_, S1⟩, ?_, P2, ?_, S2⟩
  · simpa [addScores] using L1
  · intro c hcmem
    obtain ⟨c₀, hc₀, hcc⟩ := List.mem_map.mp (M1 c hcmem)
    exact ⟨c₀, hc₀, by rw [← hcc]; simp [setScore]⟩
  · simpa [addScoresChunks] using L2
  · intro c hcmem
    obtain ⟨c₀, hc₀, hcc⟩ := List.mem_map.mp (M2 c hcmem)
    exact ⟨c₀, hc₀, by rw [← hcc]⟩


theorem rerank_shape_sorted_stable_witness :
    ([sampleCandidate] ≠ ([] : List Candidate)) ∧ ([sampleChunk] ≠ ([] : List ChunkD)) ∧ (0 < 1)
    ∧ (((rerank (fun _ _ => 0) 1 "q" [sampleCandidate]).length = min 1 [sampleCandidate].length
     ∧ List.Pairwise (fun a b => getScore b ≤ getScore a) (rerank (fun _ _ => 0) 1 "q" [sampleCandidate])
     ∧ (∀ c ∈ rerank (fun _ _ => 0) 1 "q" [sampleCandidate], ∃ c₀ ∈ [sampleCandidate], c.text = c₀.text)
     ∧ (∀ s : Int, (rerank (fun _ _ => 0) 1 "q" [sampleCandidate]).filter (fun c => decide (getScore c = s))
         <+: (addScores (fun _ _ => 0) "q" [sampleCandidate]).filter (fun c => decide (getScore c = s))))
    ∧ ((rerank_chunks (fun _ _ => 0) "q" [sampleChunk] 1).length = min 1 [sampleChunk].length
     ∧ List.Pairwise (fun a b => chunkScore b ≤ chunkScore a) (rerank_chunks (fun _ _ => 0) "q" [sampleChunk] 1)
     ∧ (∀ c ∈ rerank_chunks (fun _ _ => 0) "q" [sampleChunk] 1, ∃ c₀ ∈ [sampleChunk], c.text = c₀.text)
     ∧ (∀ s : Int, (rerank_chunks (fun _ _ => 0) "q" [sampleChunk] 1).filter (fun c => decide (chunkScore c = s))
         <+: (addScoresChunks (fun _ _ => 0) "q" [sampleChunk]).filter (fun c => decide (chunkScore c = s))))) :=
  ⟨List.cons_ne_nil _ _, List.cons_ne_nil _ _, Nat.one_pos,
    rerank_shape_sorted_stable (fun _ _ => 0) "q" 1 [sampleCandidate] [sampleChunk]
      (List.cons_ne_nil _ _) (List.cons_ne_nil _ _) Nat.one_pos⟩

def emptyTextCandidate : Candidate :=
  { id := 7, text := "", source := "doc.md", chunk_index := 0, order := 0,
    distance := 0, rerank_score := none }

def noTextChunk : ChunkD :=
  { id := 7, text := none, rerank_score := none }

/-- C2 counterexample: a candidate whose text is empty (and a chunk whose
text key is missing) is NOT excluded before scoring — it is paired with the
query, scored, and even returned: the claim that no element of the scored
set has empty text is false on the code. -/
theorem rerank_scores_empty_text_counterexample :
    (∃ c ∈ rerank (fun _ _ => 5) 8 "q" [emptyTextCandidate],
        c.text = "" ∧ c.rerank_score = some 5)
    ∧ (∃ c ∈ rerank_chunks (fun _ _ => 5) "q" [noTextChunk] 8,
        c.text = none ∧ c.rerank_score = some 5) := by
  constructor
  · refine ⟨setScore emptyTextCandidate 5, ?_, rfl, rfl⟩
    simp [rerank, addScores, setScore]
  · refine ⟨{ noTextChunk with rerank_score := some 5 }, ?_, rfl, rfl⟩
    simp [rerank_chunks, addScoresChunks, noTextChunk]

/-- C2 (amended): no candidate is excluded before scoring.  Every input
candidate — medium, empty or missing text alike — is paired with the query,
scored, and (when `top_n` is the input length) present in the output with
its score attached; `rerank_chunks` substitutes `""` for a missing text key
rather than dropping the chunk. -/
theorem rerank_scores_all_candidates
    (predict : String → String → Int) (q : String)
    (cands : List Candidate) (chunks : List ChunkD) :
    (∀ c ∈ cands, setScore c (predict q c.text) ∈ rerank predict cands.length q cands)
    ∧ (∀ c ∈ chunks, ({ c with rerank_score := some (predict q (c.text.getD "")) } : ChunkD)
        ∈ rerank_chunks predict q chunks chunks.length) := by
  constructor
  · intro c hc
    have hne : cands ≠ [] := by
      intro h
      rw [h] at hc
      exact absurd hc (List.not_mem_nil c)
    have hc' : cands.isEmpty = false := by
      simpa [List.isEmpty_iff] using hne
    have hlen : ((addScores predict q cands).mergeSort (keyDescLE getScore)).length
        = cands.length := by
      simp [addScores]
    simp only [rerank, hc', Bool.false_eq_true, if_false]
    rw [List.take_of_length_le (le_of_eq hlen)]
    exact List.mem_mergeSort.mpr (List.mem_map_of_mem _ hc)
  · intro c hc
    have hne : chunks ≠ [] := by
      intro h
      rw [h] at hc
      exact absurd hc (List.not_mem_nil c)
    have hc' : chunks.isEmpty = false := by
      simpa [List.isEmpty_iff] using hne
    have hlen : ((addScoresChunks predict q chunks).mergeSort (keyDescLE chunkScore)).length
        = chunks.length := by
      simp [addScoresChunks]
    simp only [rerank_chunks, hc', Bool.false_eq_true, if_false]
    rw [List.take_of_length_le (le_of_eq hlen)]
    exact List.mem_mergeSort.mpr (List.mem_map_of_mem _ hc)

/-- C3: an empty or whitespace-only `search_query` makes `answer` return the
empty-question sentinel with an empty chunk list at once; retrieval,
re-ranking and the generator are all not invoked. -/
theorem answer_empty_query_sentinel
    (retrieveFn : String → List Candidate)
    (rerankFn : String → List Candidate → List Candidate)
    (llmFn : String → List Candidate → String)
    (search_query : String) (question : Option String)
    (h : isBlank search_query = true) :
    answerRun retrieveFn rerankFn llmFn search_query question
      = (("שאלה ריקה.", []), ⟨false, false, false⟩) := by
  simp [answerRun, h]

theorem answer_empty_query_sentinel_witness :
    (isBlank "  " = true)
    ∧ answerRun (fun _ => [sampleCandidate]) (fun _ l => l) (fun _ _ => "a") "  " none
      = (("שאלה ריקה.", []), ⟨false, false, false⟩) :=
  ⟨by decide, answer_empty_query_sentinel _ _ _ "  " none (by decide)⟩

/-- C4: a non-blank `search_query` for which retrieval returns no candidates
makes `answer` return the no-candidates sentinel with an empty chunk list;
re-ranking and the generator are not invoked (retrieval was). -/
theorem answer_no_candidates_sentinel
    (retrieveFn : String → List Candidate)
    (rerankFn : String → List Candidate → List Candidate)
    (llmFn : String → List Candidate → String)
    (search_query : String) (question : Option String)
    (hq : isBlank search_query = false)
    (hr : retrieveFn search_query = []) :
    answerRun retrieveFn rerankFn llmFn search_query question
      = (("לא נמצאו קטעים רלוונטיים במסמכים.", []), ⟨true, false, false⟩) := by
  simp [answerRun, hq, hr]

theorem answer_no_candidates_sentinel_witness :
    (isBlank "שאלה" = false)
    ∧ ((fun (_ : String) => ([] : List Candidate)) "שאלה" = [])
    ∧ answerRun (fun _ => []) (fun _ l => l) (fun _ _ => "a") "שאלה" none
      = (("לא נמצאו קטעים רלוונטיים במסמכים.", []), ⟨true, false, false⟩) :=
  ⟨by decide, rfl,
    answer_no_candidates_sentinel _ _ _ "שאלה" none (by decide) rfl⟩

/-- C5: with a loadable name, a second `get_embedding_model` call in a row
returns the very handle of the first call and leaves the cache state
untouched; a call whose name differs from the cached one loads a fresh
handle (distinct from whatever handle was cached, by handle freshness) and
replaces the cached slot with it. -/
theorem get_embedding_model_cache_policy
    (failing : String → Bool) (name : String) (st : CacheState)
    (hload : failing name = false)
    (hfresh : ∀ h, st.embedding_model = some h → h < st.counter) :
    (get_embedding_model failing name ((get_embedding_model failing name st).2)
        = get_embedding_model failing name st)
    ∧ (st.embedding_model_name ≠ some name →
        (get_embedding_model failing name st).1 = Except.ok st.counter
        ∧ ((get_embedding_model failing name st).2).embedding_model = some st.counter
        ∧ ((get_embedding_model failing name st).2).embedding_model_name = some name
        ∧ ∀ h₀, st.embedding_model = some h₀ → h₀ ≠ st.counter) := by
  constructor
  · by_cases hcond : st.embedding_model = none ∨ st.embedding_model_name ≠ some name
    · have hfirst : get_embedding_model failing name st
          = (Except.ok st.counter,
             { st with embedding_model := some st.counter,
                       embedding_model_name := some name,
                       counter := st.counter + 1 }) := by
        rw [get_embedding_model, if_pos hcond, if_neg (by simp [hload])]
      rw [hfirst, get_embedding_model, if_neg (by simp)]
      simp
    · have hfirst : get_embedding_model failing name st
          = (Except.ok (st.embedding_model.getD 0), st) := by
        rw [get_embedding_model, if_neg hcond]
      rw [hfirst, get_embedding_model, if_neg (by simpa using hcond)]
  · intro hdiff
    have hcond : st.embedding_model = none ∨ st.embedding_model_name ≠ some name :=
      Or.inr hdiff
    rw [get_embedding_model, if_pos hcond, if_neg (by simp [hload])]
    exact ⟨rfl, rfl, rfl, fun h₀ hh₀ => Nat.ne_of_lt (hfresh h₀ hh₀)⟩

def emptyCache : CacheState :=
  { embedding_model := none, embedding_model_name := none,
    rerank_model := none, rerank_model_name := none, counter := 0 }

theorem get_embedding_model_cache_policy_witness :
    ((fun (_ : String) => false) "X" = false)
    ∧ (∀ h, emptyCache.embedding_model = some h → h < emptyCache.counter)
    ∧ ((get_embedding_model (fun _ => false) "X"
          ((get_embedding_model (fun _ => false) "X" emptyCache).2)
        = get_embedding_model (fun _ => false) "X" emptyCache)
    ∧ (emptyCache.embedding_model_name ≠ some "X" →
        (get_embedding_model (fun _ => false) "X" emptyCache).1
          = Except.ok emptyCache.counter
        ∧ ((get_embedding_model (fun _ => false) "X" emptyCache).2).embedding_model
          = some emptyCache.counter
        ∧ ((get_embedding_model (fun _ => false) "X" emptyCache).2).embedding_model_name
          = some "X"
        ∧ ∀ h₀, emptyCache.embedding_model = some h₀ → h₀ ≠ emptyCache.counter)) :=
  ⟨rfl, by simp [emptyCache],
    get_embedding_model_cache_policy (fun _ => false) "X" emptyCache rfl
      (by simp [emptyCache])⟩

/-- Helper for the rerank-model cache: a second call whose name resolves to
the same concrete model as a preceding successful call hits the cache —
same handle back, state byte-for-byte unchanged. -/
theorem get_rerank_model_second_call
    (failing : String → Bool) (name₁ name₂ : String) (st : CacheState)
    (hres : resolveAlias name₂ = resolveAlias name₁)
    (hload : failing (resolveAlias name₁) = false) :
    get_rerank_model failing name₂ ((get_rerank_model failing name₁ st).2)
      = get_rerank_model failing name₁ st := by
  by_cases hcond : st.rerank_model = none ∨ st.rerank_model_name ≠ some (resolveAlias name₁)
  · have hfirst : get_rerank_model failing name₁ st
        = (Except.ok st.counter,
           { st with rerank_model := some st.counter,
                     rerank_model_name := some (resolveAlias name₁),
                     counter := st.counter + 1 }) := by
      rw [get_rerank_model, if_pos hcond, if_neg (by simp [hload])]
    rw [hfirst, get_rerank_model, if_neg (by simp [hres])]
    simp
  · have hfirst : get_rerank_model failing name₁ st
        = (Except.ok (st.rerank_model.getD 0), st) := by
      rw [get_rerank_model, if_neg hcond]
    rw [hfirst, get_rerank_model, if_neg (by simpa [hres] using hcond)]

/-- C6: each alias of the fixed table resolves to its concrete identifier,
calling `get_rerank_model` with the alias behaves exactly as calling it with
the resolved identifier, and once a first call has loaded the model, a
second call with either the alias or the identifier returns the same handle
with the cache state unchanged (the comparison is on the resolved name). -/
theorem get_rerank_model_alias_policy
    (al actual : String) (hmem : (al, actual) ∈ RERANK_MODEL_ALIASES)
    (failing : String → Bool) (st : CacheState)
    (hload : failing actual = false) :
    (resolveAlias al = actual)
    ∧ (get_rerank_model failing al st = get_rerank_model failing actual st)
    ∧ (get_rerank_model failing al ((get_rerank_model failing al st).2)
        = get_rerank_model failing al st)
    ∧ (get_rerank_model failing actual ((get_rerank_model failing al st).2)
        = get_rerank_model failing al st) := by
  have hres : resolveAlias al = actual ∧ resolveAlias actual = actual := by
    simp only [RERANK_MODEL_ALIASES, List.mem_cons, List.not_mem_nil, or_false,
      Prod.mk.injEq] at hmem
    rcases hmem with ⟨rfl, rfl⟩ | ⟨rfl, rfl⟩ | ⟨rfl, rfl⟩ | ⟨rfl, rfl⟩ <;>
      exact ⟨rfl, rfl⟩
  obtain ⟨hal, hactual⟩ := hres
  have hload' : failing (resolveAlias al) = false := by rw [hal]; exact hload
  have heq : get_rerank_model failing al st = get_rerank_model failing actual st := by
    rw [get_rerank_model, get_rerank_model, hal, hactual]
  refine ⟨hal, heq, ?_, ?_⟩
  · exact get_rerank_model_second_call failing al al st rfl hload'
  · exact heq ▸ get_rerank_model_second_call failing actual actual st rfl
      (by rw [hactual]; exact hload)

theorem get_rerank_model_alias_policy_witness :
    (("fast", "cross-encoder/ms-marco-MiniLM-L-6-v2") ∈ RERANK_MODEL_ALIASES)
    ∧ ((fun (_ : String) => false) "cross-encoder/ms-marco-MiniLM-L-6-v2" = false)
    ∧ ((resolveAlias "fast" = "cross-encoder/ms-marco-MiniLM-L-6-v2")
    ∧ (get_rerank_model (fun _ => false) "fast" emptyCache
        = get_rerank_model (fun _ => false) "cross-encoder/ms-marco-MiniLM-L-6-v2" emptyCache)
    ∧ (get_rerank_model (fun _ => false) "fast"
          ((get_rerank_model (fun _ => false) "fast" emptyCache).2)
        = get_rerank_model (fun _ => false) "fast" emptyCache)
    ∧ (get_rerank_model (fun _ => false) "cross-encoder/ms-marco-MiniLM-L-6-v2"
          ((get_rerank_model (fun _ => false) "fast" emptyCache).2)
        = get_rerank_model (fun _ => false) "fast" emptyCache)) :=
  ⟨by simp [RERANK_MODEL_ALIASES], rfl,
    get_rerank_model_alias_policy "fast" "cross-encoder/ms-marco-MiniLM-L-6-v2"
      (by simp [RERANK_MODEL_ALIASES]) (fun _ => false) emptyCache rfl⟩

/-- C7: when the requested model is not the cached one and its load fails,
both cache accessors return the load error and hand back the cache state
exactly as it was — the old handle and name (if any) survive, and no
half-initialized slot is left behind. -/
theorem model_load_failure_leaves_cache
    (failing : String → Bool) (ename rname : String) (st : CacheState)
    (hefail : failing ename = true)
    (hrfail : failing (resolveAlias rname) = true)
    (hemiss : st.embedding_model = none ∨ st.embedding_model_name ≠ some ename)
    (hrmiss : st.rerank_model = none ∨ st.rerank_model_name ≠ some (resolveAlias rname)) :
    get_embedding_model failing ename st = (Except.error "model load error", st)
    ∧ get_rerank_model failing rname st = (Except.error "model load error", st) := by
  constructor
  · rw [get_embedding_model, if_pos hemiss, if_pos hefail]
  · rw [get_rerank_model, if_pos hrmiss, if_pos hrfail]

theorem model_load_failure_leaves_cache_witness :
    ((fun (_ : String) => true) "bad-model" = true)
    ∧ ((fun (_ : String) => true) (resolveAlias "bad-model") = true)
    ∧ (emptyCache.embedding_model = none ∨ emptyCache.embedding_model_name ≠ some "bad-model")
    ∧ (emptyCache.rerank_model = none ∨ emptyCache.rerank_model_name ≠ some (resolveAlias "bad-model"))
    ∧ (get_embedding_model (fun _ => true) "bad-model" emptyCache
        = (Except.error "model load error", emptyCache)
    ∧ get_rerank_model (fun _ => true) "bad-model" emptyCache
        = (Except.error "model load error", emptyCache)) :=
  ⟨rfl, rfl, Or.inl rfl, Or.inl rfl,
    model_load_failure_leaves_cache (fun _ => true) "bad-model" "bad-model" emptyCache
      rfl rfl (Or.inl rfl) (Or.inl rfl)⟩

def permCandA : Candidate :=
  { id := 1, text := "a", source := "s", chunk_index := 0, order := 0,
    distance := 0, rerank_score := none }

def permCandB : Candidate :=
  { id := 2, text := "bb", source := "s", chunk_index := 0, order := 0,
    distance := 0, rerank_score := none }

/-- C8 counterexample: when two candidates tie on score and the tie crosses
the top-N boundary, permuting the input changes which candidate survives the
truncation — the returned id sets differ, so order-independence of the
output id set fails as stated. -/
theorem rerank_perm_id_set_counterexample :
    List.Perm [permCandA, permCandB] [permCandB, permCandA]
    ∧ (rerank (fun _ _ => 0) 1 "q" [permCandA, permCandB]).map (fun c => c.id) = [1]
    ∧ (rerank (fun _ _ => 0) 1 "q" [permCandB, permCandA]).map (fun c => c.id) = [2] := by
  refine ⟨List.Perm.swap permCandB permCandA [], ?_, ?_⟩
  · have hs : (addScores (fun _ _ => (0 : Int)) "q" [permCandA, permCandB]).Pairwise
        (fun a b => keyDescLE getScore a b = true) := by
      simp [addScores, setScore, keyDescLE, getScore]
    rw [rerank, if_neg (by simp), List.mergeSort_of_sorted hs]
    simp [addScores, setScore, permCandA]
  · have hs : (addScores (fun _ _ => (0 : Int)) "q" [permCandB, permCandA]).Pairwise
        (fun a b => keyDescLE getScore a b = true) := by
      simp [addScores, setScore, keyDescLE, getScore]
    rw [rerank, if_neg (by simp), List.mergeSort_of_sorted hs]
    simp [addScores, setScore, permCandB]

/-- C8 (amended): under the claim's deterministic-scorer assumption AND the
extra assumption that the scores of the candidates are pairwise distinct
(no ties), permuting the input candidate list leaves the re-ranked output
entirely unchanged — in particular the top-N id set is the same.  (The
counterexample shows the no-ties assumption is necessary: a tie crossing
the top-N boundary changes the id set.) -/
theorem rerank_perm_invariant
    (predict : String → String → Int) (q : String) (top_n : Nat)
    (l₁ l₂ : List Candidate)
    (hperm : List.Perm l₁ l₂)
    (hinj : (l₁.map (fun c => predict q c.text)).Nodup) :
    rerank predict top_n q l₁ = rerank predict top_n q l₂
    ∧ (rerank predict top_n q l₁).map (fun c => c.id)
        = (rerank predict top_n q l₂).map (fun c => c.id) := by
  have hpermS : List.Perm (addScores predict q l₁) (addScores predict q l₂) :=
    hperm.map _
  have hscores : (addScores predict q l₁).map getScore
      = l₁.map (fun c => predict q c.text) := by
    simp [addScores, setScore, getScore, List.map_map, Function.comp]
  have hnd : ((addScores predict q l₁).map getScore).Nodup := by
    rw [hscores]; exact hinj
  have hsorteq : (addScores predict q l₁).mergeSort (keyDescLE getScore)
      = (addScores predict q l₂).mergeSort (keyDescLE getScore) := by
    have hanti : ∀ a b : Candidate,
        a ∈ (addScores predict q l₁).mergeSort (keyDescLE getScore)
        → b ∈ (addScores predict q l₂).mergeSort (keyDescLE getScore)
        → keyDescLE getScore a b = true → keyDescLE getScore b a = true → a = b := by
      intro a b ha hb hab hba
      have ha' : a ∈ addScores predict q l₁ := List.mem_mergeSort.mp ha
      have hb' : b ∈ addScores predict q l₁ :=
        hpermS.symm.subset (List.mem_mergeSort.mp hb)
      have hab' : getScore b ≤ getScore a := by
        simpa [keyDescLE] using hab
      have hba' : getScore a ≤ getScore b := by
        simpa [keyDescLE] using hba
      exact List.inj_on_of_nodup_map hnd ha' hb' (le_antisymm hba' hab')
    exact List.Perm.eq_of_sorted hanti
      (List.sorted_mergeSort (keyDescLE_trans getScore) (keyDescLE_total getScore) _)
      (List.sorted_mergeSort (keyDescLE_trans getScore) (keyDescLE_total getScore) _)
      ((List.mergeSort_perm _ _).trans (hpermS.trans (List.mergeSort_perm _ _).symm))
  have hmain : rerank predict top_n q l₁ = rerank predict top_n q l₂ := by
    by_cases h1 : l₁ = []
    · have h2 : l₂ = [] := (h1 ▸ hperm).symm.eq_nil
      rw [h1, h2]
    · have h2 : l₂ ≠ [] := by
        intro h2
        exact h1 (List.Perm.eq_nil (h2.symm ▸ hperm))
      have h1' : l₁.isEmpty = false := by simpa [List.isEmpty_iff] using h1
      have h2' : l₂.isEmpty = false := by simpa [List.isEmpty_iff] using h2
      rw [rerank, rerank, h1', h2']
      simp only [Bool.false_eq_true, if_false]
      rw [hsorteq]
  exact ⟨hmain, by rw [hmain]⟩

theorem rerank_perm_invariant_witness :
    (List.Perm [permCandA, permCandB] [permCandB, permCandA])
    ∧ (([permCandA, permCandB].map (fun c => ((fun _ t => (t.length : Int)) "q" c.text))).Nodup)
    ∧ (rerank (fun _ t => (t.length : Int)) 1 "q" [permCandA, permCandB]
        = rerank (fun _ t => (t.length : Int)) 1 "q" [permCandB, permCandA]
    ∧ (rerank (fun _ t => (t.length : Int)) 1 "q" [permCandA, permCandB]).map (fun c => c.id)
        = (rerank (fun _ t => (t.length : Int)) 1 "q" [permCandB, permCandA]).map (fun c => c.id)) :=
  ⟨List.Perm.swap permCandB permCandA [], by decide,
    rerank_perm_invariant (fun _ t => (t.length : Int)) "q" 1 [permCandA, permCandB]
      [permCandB, permCandA] (List.Perm.swap permCandB permCandA []) (by decide)⟩

/-! ## Retrieval -/

theorem distAscLE_trans (dist : List Int → Int) (a b c : Row) :
    distAscLE dist a b → distAscLE dist b c → distAscLE dist a c := by
  simp only [distAscLE, decide_eq_true_eq]
  exact fun h₁ h₂ => le_trans h₁ h₂

theorem distAscLE_total (dist : List Int → Int) (a b : Row) :
    distAscLE dist a b || distAscLE dist b a := by
  simp only [distAscLE, Bool.or_eq_true, decide_eq_true_eq]
  exact le_total _ _

/-- C9: retrieval returns at most `top_k` candidates, in ascending-distance
order, and every returned candidate is the image of a table row whose
embedding is non-NULL — rows with NULL embeddings never come back. -/
theorem retrieve_candidates_spec
    (dist : List Int → Int) (table : List Row) (top_k : Nat) :
    (retrieve_candidates dist table top_k).length ≤ top_k
    ∧ List.Pairwise (fun a b => a.distance ≤ b.distance)
        (retrieve_candidates dist table top_k)
    ∧ (∀ c ∈ retrieve_candidates dist table top_k,
        ∃ r ∈ table, r.embedding.isSome ∧ c = rowToCandidate dist r) := by
  refine ⟨?_, ?_, ?_⟩
  · simp only [retrieve_candidates, List.length_map, sqlQuery]
    exact List.length_take_le _ _
  · have hs : (((table.filter (fun r => r.embedding.isSome)).mergeSort
        (distAscLE dist)).take top_k).Pairwise
        (fun a b => distAscLE dist a b = true) :=
      (List.sorted_mergeSort (distAscLE_trans dist) (distAscLE_total dist) _).sublist
        (List.take_sublist _ _)
    rw [retrieve_candidates, List.pairwise_map]
    refine (hs.imp ?_)
    intro a b hab
    simpa [distAscLE, rowToCandidate] using hab
  · intro c hc
    obtain ⟨r, hr, hrc⟩ := List.mem_map.mp hc
    have hr' : r ∈ table.filter (fun r => r.embedding.isSome) :=
      List.mem_mergeSort.mp (List.take_subset _ _ hr)
    obtain ⟨hrt, hremb⟩ := List.mem_filter.mp hr'
    exact ⟨r, hrt, hremb, hrc.symm⟩

/-! ## In-place mutation of the caller's candidate dicts -/

theorem setScore_setScore (c : Candidate) (s t : Int) :
    setScore (setScore c s) t = setScore c t := by
  cases c
  rfl

theorem zip_map_self (g : Nat → Int) :
    ∀ (l : List Nat), l.zip (l.map g) = l.map (fun r => (r, g r))
  | [] => rfl
  | a :: tl => by simp [zip_map_self g tl]

theorem writeScore_foldl (g : Nat → Int) :
    ∀ (refs : List Nat) (st : Nat → Candidate) (r : Nat),
    ((refs.map (fun x => (x, g x))).foldl (fun s p => writeScore s p.1 p.2) st) r
      = if r ∈ refs then setScore (st r) (g r) else st r
  | [], _, r => by simp
  | a :: tl, st, r => by
    simp only [List.map_cons, List.foldl_cons]
    rw [writeScore_foldl g tl (writeScore st a (g a)) r]
    by_cases htl : r ∈ tl
    · rw [if_pos htl, if_pos (List.mem_cons_of_mem a htl)]
      by_cases ha : r = a
      · subst ha
        rw [writeScore, Function.update_same, setScore_setScore]
      · rw [writeScore, Function.update_noteq ha]
    · rw [if_neg htl]
      by_cases ha : r = a
      · subst ha
        rw [if_pos (List.mem_cons_self r tl), writeScore, Function.update_same]
      · rw [writeScore, Function.update_noteq ha,
          if_neg (fun hmem => (List.mem_cons.mp hmem).elim ha htl)]

/-- C10: `RagQueryEngine.rerank` mutates the caller's candidate dicts in
place: after the call, every dict the input list referenced — including the
ones that do not make the returned top-N — carries a `rerank_score` key
holding its cross-encoder score; dicts not referenced by the input list are
untouched.  The returned value is a fresh sorted-and-truncated list of at
most `top_n` of the input's references (built by `sorted(...)[:top_n]`),
while the input reference list itself is immutable data in this model, just
as the Python list object is never reordered by the source. -/
theorem rerank_heap_mutation
    (predict : String → String → Int) (top_n : Nat) (question : String)
    (refs : List Nat) (store : Nat → Candidate) (hne : refs ≠ []) :
    (∀ r ∈ refs, (rerankHeap predict top_n question refs store).2 r
        = setScore (store r) (predict question (store r).text))
    ∧ (∀ r, r ∉ refs → (rerankHeap predict top_n question refs store).2 r = store r)
    ∧ ((rerankHeap predict top_n question refs store).1.length = min top_n refs.length
        ∧ ∀ r ∈ (rerankHeap predict top_n question refs store).1, r ∈ refs) := by
  have hne' : refs.isEmpty = false := by
    simpa [List.isEmpty_iff] using hne
  have hstore2 : (rerankHeap predict top_n question refs store).2
      = (refs.map (fun x => (x, predict question (store x).text))).foldl
          (fun s p => writeScore s p.1 p.2) store := by
    simp only [rerankHeap, hne', Bool.false_eq_true, if_false, List.map_map,
      zip_map_self, Function.comp]
  have hlist : (rerankHeap predict top_n question refs store).1
      = (refs.mergeSort (keyDescLE (fun r =>
          getScore ((rerankHeap predict top_n question refs store).2 r)))).take top_n := by
    simp only [rerankHeap, hne', Bool.false_eq_true, if_false, List.map_map]
  refine ⟨?_, ?_, ?_, ?_⟩
  · intro r hr
    rw [hstore2, writeScore_foldl, if_pos hr]
  · intro r hr
    rw [hstore2, writeScore_foldl, if_neg hr]
  · rw [hlist]
    simp
  · intro r hr
    rw [hlist] at hr
    exact List.mem_mergeSort.mp (List.take_subset _ _ hr)

theorem rerank_heap_mutation_witness :
    ([0, 1] ≠ ([] : List Nat))
    ∧ ((∀ r ∈ [0, 1], (rerankHeap (fun _ _ => 3) 1 "q" [0, 1] (fun _ => sampleCandidate)).2 r
        = setScore ((fun _ => sampleCandidate) r) ((fun _ _ => (3 : Int)) "q" ((fun _ => sampleCandidate) r).text))
    ∧ (∀ r, r ∉ [0, 1] → (rerankHeap (fun _ _ => 3) 1 "q" [0, 1] (fun _ => sampleCandidate)).2 r
        = (fun _ => sampleCandidate) r)
    ∧ ((rerankHeap (fun _ _ => 3) 1 "q" [0, 1] (fun _ => sampleCandidate)).1.length
          = min 1 ([0, 1] : List Nat).length
        ∧ ∀ r ∈ (rerankHeap (fun _ _ => 3) 1 "q" [0, 1] (fun _ => sampleCandidate)).1,
            r ∈ [0, 1])) :=
  ⟨List.cons_ne_nil _ _,
    rerank_heap_mutation (fun _ _ => 3) 1 "q" [0, 1] (fun _ => sampleCandidate)
      (List.cons_ne_nil _ _)⟩
